import Mathlib

/-!
Universal Web Scraping System: core embedding and verification.

A shallow embedding of the UWSS document-acquisition core
(`uwss/schemas/location.py`, `uwss/core/discovery.py`,
`uwss/plugins/openalex/mapper.py`, `uwss/plugins/unpaywall/mapper.py`,
`uwss/registry.py`, `uwss/core/fetching.py`) together with proofs of the
specified properties.

Network and filesystem effects are made explicit: HTTP responses are
supplied by oracle functions, the filesystem is a map from paths to byte
lists, and the item store is a log of upsert calls.  Python strings are
Lean `String`s manipulated through character-list helpers that mirror the
Python builtins (`strip`, `lower`, `startswith`, `replace`, substring
containment) and evaluate inside the kernel.
-/

namespace UWSS

/-- Python `s.strip()`: drop leading and trailing whitespace. -/
def pyStrip (s : String) : String :=
  String.mk (((s.data.dropWhile Char.isWhitespace).reverse.dropWhile Char.isWhitespace).reverse)

/-- Python `s.lower()`. -/
def pyLower (s : String) : String :=
  String.mk (s.data.map Char.toLower)

/-- Python `s.startswith(pre)`. -/
def pyStartsWith (s pre : String) : Bool :=
  pre.data.isPrefixOf s.data

/-- One step of `replace` on character lists, with fuel bounded by the
list length (each step consumes at least one character when the pattern
is non-empty). -/
def replaceListAux (pat rep : List Char) : Nat → List Char → List Char
  | 0, l => l
  | _ + 1, [] => []
  | fuel + 1, c :: rest =>
    if pat.isPrefixOf (c :: rest) then
      rep ++ replaceListAux pat rep fuel (List.drop (pat.length - 1) rest)
    else
      c :: replaceListAux pat rep fuel rest

/-- Python `s.replace(pat, rep)` (all occurrences; empty pattern returns
`s` unchanged, which is all the source ever relies on). -/
def pyReplace (s pat rep : String) : String :=
  if pat.data.isEmpty then s
  else String.mk (replaceListAux pat.data rep.data s.data.length s.data)

/-- Is `n` an infix of `l`? -/
def infixB (n : List Char) : List Char → Bool
  | [] => n.isEmpty
  | c :: rest => n.isPrefixOf (c :: rest) || infixB n rest

/-- Python `needle in hay` for strings. -/
def strContains (hay needle : String) : Bool :=
  infixB needle.data hay.data

/-- Python truthiness of an optional string: `None` and `""` are falsy. -/
def optStrTruthy (o : Option String) : Bool :=
  o.getD "" != ""

/-- Python `a or b` on two optional strings (returns `b` whenever `a` is
falsy). -/
def pyOrStr (a b : Option String) : Option String :=
  if optStrTruthy a then a else b

/-! Location model (`uwss/schemas/location.py`) -/

/-- `Location` dataclass: one download candidate. -/
structure Location where
  pdf_url : Option String := none
  html_url : Option String := none
  priority : Int := 100
  source : String := ""
  is_oa : Option Bool := none
  license : Option String := none
deriving DecidableEq

/-- A dict argument to `normalize_locations`, with the keys the code
reads (`pdf_url`, `html_url`, `url`, `priority`, `source`, `is_oa`,
`license`); `none` models an absent key. -/
structure LocDict where
  pdf_url : Option String := none
  html_url : Option String := none
  url : Option String := none
  priority : Option Int := none
  source : Option String := none
  is_oa : Option Bool := none
  license : Option String := none
deriving DecidableEq

/-- An element of the iterable passed to `normalize_locations`: either a
`Location` value or a dict. -/
inductive LocInput where
  | loc (l : Location)
  | dict (d : LocDict)
deriving DecidableEq

/-- The per-element conversion inside `normalize_locations`: a `Location`
passes through; a dict is read field by field with the source's defaults
(`html_url` falls back to `url`, `priority` defaults to 100, `source` to
`""`). -/
def locationOfInput : LocInput → Location
  | .loc l => l
  | .dict d =>
    { pdf_url := d.pdf_url
      html_url := pyOrStr d.html_url d.url
      priority := d.priority.getD 100
      source := d.source.getD ""
      is_oa := d.is_oa
      license := d.license }

/-- The filter in `normalize_locations`: keep an entry iff at least one
of its URLs is truthy (`if not (loc.pdf_url or loc.html_url): continue`). -/
def keepLoc (l : Location) : Bool :=
  optStrTruthy l.pdf_url || optStrTruthy l.html_url

/-- Comparison used by `out.sort(key=lambda z: z.priority)`. -/
def locLe (a b : Location) : Bool :=
  decide (a.priority ≤ b.priority)

/-- Stable insertion into a sorted list: the new element goes in front of
the first element it compares `le` to, hence behind all earlier equals. -/
def stInsert {α : Type} (le : α → α → Bool) (a : α) : List α → List α
  | [] => [a]
  | b :: bs => if le a b then a :: b :: bs else b :: stInsert le a bs

/-- Stable sort by `le`.  Python's `list.sort` is a stable ascending sort
by the key; any two stable sorts with the same key agree on every input,
so stable insertion sort is an extensionally faithful model of it. -/
def stableSort {α : Type} (le : α → α → Bool) : List α → List α
  | [] => []
  | a :: as => stInsert le a (stableSort le as)

/-- `normalize_locations`: convert every input to a `Location`, drop
entries with both URLs falsy, stable-sort ascending by `priority`. -/
def normalize_locations (xs : List LocInput) : List Location :=
  stableSort locLe ((xs.map locationOfInput).filter keepLoc)

/-- `normalize_locations` applied to a plain `Location` list (how the
mappers and the registry call it). -/
def normalizeLocs (ls : List Location) : List Location :=
  normalize_locations (ls.map LocInput.loc)

/-! Discovery crawler (`uwss/core/discovery.py`) -/

/-- Python `sep.join(parts)`: the separator goes between consecutive
parts only. -/
def joinSep (sep : String) : List String → String
  | [] => ""
  | [t] => t
  | t :: t2 :: ts => t ++ sep ++ joinSep sep (t2 :: ts)

/-- `_build_search_query`: drop keywords that are empty or whitespace-only,
strip the rest, wrap each one in `("...")` and join with `" OR "`;
`none` when no keyword survives (the `search` parameter is omitted). -/
def build_search_query (keywords : List String) : Option String :=
  let kws := (keywords.filter (fun k => k ≠ "" && pyStrip k ≠ "")).map pyStrip
  if kws.isEmpty then none
  else some (joinSep " OR " (kws.map (fun k => "(\"" ++ k ++ "\")")))

/-- One parsed page of the paginated works endpoint: the `results` array
(`data.get("results") or []`) and `meta.next_cursor` (`none` models an
absent or null cursor). -/
structure Page (W : Type) where
  results : List W
  next_cursor : Option String
deriving DecidableEq

/-- Python truthiness of `params.get("cursor")`: `None` and `""` are falsy. -/
def truthyCursor : Option String → Bool
  | none => false
  | some s => s != ""

/-- The `while` loop of `discover_openalex`.  `serve` is the upstream
oracle: for a cursor value it returns the parsed page, or `none` for a
transport error, a non-200 status, or malformed JSON (all of which
`break` the loop).  The inner `for` yields each result and stops once
`fetched` reaches `max_results` (modelled by `take`); an empty results
array breaks; afterwards the cursor advances to `next_cursor`. -/
def discoverLoop {W : Type} (serve : String → Option (Page W)) (max_results : Nat)
    (cursor : Option String) (fetched : Nat) : List W :=
  if h : fetched < max_results ∧ truthyCursor cursor = true then
    match cursor with
    | none => []
    | some s =>
      match serve s with
      | none => []
      | some pg =>
        match pg.results with
        | [] => []
        | x :: rest =>
          let taken := (x :: rest).take (max_results - fetched)
          taken ++ discoverLoop serve max_results pg.next_cursor (fetched + taken.length)
  else []
termination_by max_results - fetched
decreasing_by
  obtain ⟨h1, -⟩ := h
  simp only [List.length_take, List.length_cons]
  omega

/-- `discover_openalex`, abstracted over the upstream oracle: the cursor
starts at the sentinel `"*"` and the yielded-record counter at 0. -/
def discover_openalex {W : Type} (serve : String → Option (Page W)) (max_results : Nat) :
    List W :=
  discoverLoop serve max_results (some "*") 0

/-! OpenAlex mapper (`uwss/plugins/openalex/mapper.py`) -/

/-- One location dict in OpenAlex metadata, restricted to the keys
`_pick` reads; `none` models an absent key. -/
structure OALoc where
  url_for_pdf : Option String := none
  pdf_url : Option String := none
  url : Option String := none
  landing_page_url : Option String := none
  is_oa : Option Bool := none
  license : Option String := none
deriving DecidableEq

/-- OpenAlex work metadata, restricted to the fields the embedded
functions read.  `doi` is the record-level DOI used by enrichment.
`none` for `best_oa_location`/`primary_location` models an absent, null
or empty (falsy) dict; a `none` entry of `locations` models a non-dict
element, which is skipped but still consumes its enumeration index. -/
structure OAMeta where
  doi : Option String := none
  best_oa_location : Option OALoc := none
  primary_location : Option OALoc := none
  locations : List (Option OALoc) := []
deriving DecidableEq

/-- `map_openalex_locations`: best OA copy at priority 0, primary copy at
priority 5, listed copies at `10 + index`, all tagged `"openalex"`, then
normalized.  `_pick` reads `url_for_pdf`/`pdf_url` for the PDF URL and
`url`/`landing_page_url` for the HTML URL, with Python `or` fallbacks. -/
def map_openalex_locations (meta : OAMeta) : List Location :=
  let part := fun (pr : Int) (l : OALoc) =>
    ({ pdf_url := pyOrStr l.url_for_pdf l.pdf_url
       html_url := pyOrStr l.url l.landing_page_url
       priority := pr
       source := "openalex"
       is_oa := l.is_oa
       license := l.license } : Location)
  let bestPart := match meta.best_oa_location with
    | none => []
    | some b => [part 0 b]
  let primaryPart := match meta.primary_location with
    | none => []
    | some p => [part 5 p]
  let listedPart := meta.locations.enum.filterMap (fun pr =>
    pr.2.map (fun l => part (10 + (pr.1 : Int)) l))
  normalizeLocs (bestPart ++ primaryPart ++ listedPart)

/-! Unpaywall mapper and enrichment
(`uwss/plugins/unpaywall/mapper.py`, `uwss/registry.py`) -/

/-- One Unpaywall location dict, restricted to the keys `_pick` reads. -/
structure UPLoc where
  url_for_pdf : Option String := none
  url : Option String := none
  license : Option String := none
deriving DecidableEq

/-- A parsed Unpaywall response: `best_oa_location` (`none` models
absent, null or empty, all falsy) and `oa_locations` (a `none` entry is
a non-dict element, skipped but consuming its enumeration index). -/
structure UPData where
  best_oa_location : Option UPLoc := none
  oa_locations : List (Option UPLoc) := []
deriving DecidableEq

/-- `map_unpaywall_by_doi`, abstracted over the HTTP layer: `api` maps
the normalized DOI to the parsed response (`none` for a non-200 status
or an exception).  Requires both a DOI and an email; lowercases and
strips the DOI and removes a `https://doi.org/` prefix; the best OA
location gets priority 0 when `prefer_best` else 5, the listed ones get
`10 + index`, all tagged `"unpaywall"`; the result is normalized. -/
def map_unpaywall_by_doi (api : String → Option UPData) (doi email : String)
    (prefer_best : Bool) : List Location :=
  if doi = "" || email = "" then []
  else
    let doiNorm0 := pyLower (pyStrip doi)
    let doiNorm :=
      if pyStartsWith doiNorm0 "https://doi.org/" then
        pyReplace doiNorm0 "https://doi.org/" ""
      else doiNorm0
    match api doiNorm with
    | none => []
    | some data =>
      let pr_best : Int := if prefer_best then 0 else 5
      let bestPart := match data.best_oa_location with
        | none => []
        | some b =>
          [({ pdf_url := b.url_for_pdf, html_url := b.url, priority := pr_best
              source := "unpaywall", license := b.license } : Location)]
      let rest := data.oa_locations.enum.filterMap (fun pr =>
        pr.2.map (fun l =>
          ({ pdf_url := l.url_for_pdf, html_url := l.url, priority := 10 + (pr.1 : Int)
             source := "unpaywall", license := l.license } : Location)))
      normalizeLocs (bestPart ++ rest)

/-- `enrich_locations_with_unpaywall`: skip silently (returning the input
list) when the record has no DOI or no contact email is configured;
otherwise append the Unpaywall candidates and renormalize. -/
def enrich_locations_with_unpaywall (api : String → Option UPData) (locs : List Location)
    (meta : OAMeta) (email : String) (prefer_best : Bool) : List Location :=
  let doi := meta.doi.getD ""
  if doi = "" || email = "" then locs
  else normalizeLocs (locs ++ map_unpaywall_by_doi api doi email prefer_best)

/-! Fetch executor (`uwss/core/fetching.py`) -/

/-- A Python scalar value as stored in a work-record dict / SQLite row. -/
inductive PyVal where
  | str (s : String)
  | intv (n : Int)
  | boolv (b : Bool)
  | nullv
deriving DecidableEq

/-- A work record (`item` dict), as the lookup function of its keys. -/
def Record : Type := String → Option PyVal

/-- `r[k] = v` on a dict. -/
def recSet (r : Record) (k : String) (v : PyVal) : Record :=
  fun q => if q = k then some v else r q

/-- The filesystem under `raw_dir`: path to file bytes. -/
def FileSys : Type := String → Option (List Nat)

/-- Create or overwrite a file. -/
def fsWrite (fs : FileSys) (p : String) (bytes : List Nat) : FileSys :=
  fun q => if q = p then some bytes else fs q

/-- `os.remove`. -/
def fsRemove (fs : FileSys) (p : String) : FileSys :=
  fun q => if q = p then none else fs q

/-- Outcome of `sess.get(url, stream=True)`: `err` is a
`requests.RequestException` raised before any write; otherwise a status
code and the streamed chunks, with `interrupt = some k` modelling an
exception after `k` non-empty chunks were written (`none` = completed). -/
inductive HttpGet where
  | err
  | resp (status : Nat) (chunks : List (List Nat)) (interrupt : Option Nat)

/-- The network oracle for one `fetch_one` call: `head url` is the
`Content-Type` header of the HEAD probe (outer `none` = request
exception, inner `none` = header absent); `get url` is the streaming GET
outcome. -/
structure FetchEnv where
  head : String → Option (Option String)
  get : String → HttpGet

/-- `_head_content_type`: `""` on exception, else the header (or `""`
when absent) lowercased. -/
def head_content_type (env : FetchEnv) (url : String) : String :=
  match env.head url with
  | none => ""
  | some h => pyLower (h.getD "")

/-- `_download`: `False` without touching the file on a request exception
or a non-200 status; otherwise the file is truncated and the non-empty
chunks are written in order (all of them, or the first `k` when the
stream raises mid-way, which also yields `False`); on completion the
result is whether more than zero bytes were written. -/
def download (env : FetchEnv) (url out_path : String) (fs : FileSys) : FileSys × Bool :=
  match env.get url with
  | .err => (fs, false)
  | .resp status chunks interrupt =>
    if status ≠ 200 then (fs, false)
    else
      let nonEmpty := chunks.filter (fun c => !c.isEmpty)
      let written := (match interrupt with
        | none => nonEmpty
        | some k => nonEmpty.take k).flatten
      (fsWrite fs out_path written, interrupt.isNone && decide (written.length > 0))

/-- The bytes of `b"%PDF"`. -/
def pdfMagic : List Nat := [37, 80, 68, 70]

/-- `_is_real_pdf`: read the first 4 bytes and compare with `b"%PDF"`
(`False` when the file cannot be opened). -/
def is_real_pdf (fs : FileSys) (path : String) : Bool :=
  match fs path with
  | none => false
  | some bytes => bytes.take 4 == pdfMagic

/-- `_try_pdf`: skip a candidate without a truthy PDF URL; probe the
content type (an empty/unavailable type means "proceed anyway");
download to `base_path ++ ".pdf"`; accept only if the bytes start with
the PDF magic, otherwise delete the file (when it exists) and report
failure. -/
def try_pdf (env : FetchEnv) (loc : Location) (base_path : String) (fs : FileSys) :
    FileSys × Option String :=
  if !optStrTruthy loc.pdf_url then (fs, none)
  else
    let url := loc.pdf_url.getD ""
    let pdf_path := base_path ++ ".pdf"
    let ctype := head_content_type env url
    let is_pdf_like := if ctype ≠ "" then strContains ctype "application/pdf" else true
    if is_pdf_like then
      match download env url pdf_path fs with
      | (fs1, true) =>
        if is_real_pdf fs1 pdf_path then (fs1, some pdf_path)
        else ((if (fs1 pdf_path).isSome then fsRemove fs1 pdf_path else fs1), none)
      | (fs1, false) => (fs1, none)
    else (fs, none)

/-- `_try_html`: skip a candidate without a truthy HTML URL; download to
`base_path ++ ".html"`; accept any successful non-empty download. -/
def try_html (env : FetchEnv) (loc : Location) (base_path : String) (fs : FileSys) :
    FileSys × Option String :=
  if !optStrTruthy loc.html_url then (fs, none)
  else
    match download env (loc.html_url.getD "") (base_path ++ ".html") fs with
    | (fs1, true) => (fs1, some (base_path ++ ".html"))
    | (fs1, false) => (fs1, none)

/-- Pass 1 of `fetch_one`: walk the candidates in order, stop at the
first accepted PDF. -/
def pdfPass (env : FetchEnv) (base_path : String) :
    List Location → FileSys → FileSys × Option String
  | [], fs => (fs, none)
  | loc :: rest, fs =>
    match try_pdf env loc base_path fs with
    | (fs1, some p) => (fs1, some p)
    | (fs1, none) => pdfPass env base_path rest fs1

/-- Pass 2 of `fetch_one`: walk the candidates in order, stop at the
first accepted HTML. -/
def htmlPass (env : FetchEnv) (base_path : String) :
    List Location → FileSys → FileSys × Option String
  | [], fs => (fs, none)
  | loc :: rest, fs =>
    match try_html env loc base_path fs with
    | (fs1, some h) => (fs1, some h)
    | (fs1, none) => htmlPass env base_path rest fs1

/-- Result of one `fetch_one` call: final filesystem, the returned
record, the item-store upsert log (`db.upsert_item` calls, newest
first), and whether an upsert happened. -/
structure FetchOut where
  fs : FileSys
  record : Record
  db : List Record
  upserted : Bool

/-- `fetch_one`, abstracted over the network oracle.  `base_path` stands
for `os.path.join(raw_dir, _safe_name(item["id"]))` and `locs` for the
resolved candidate list (`locations_from_meta` plus optional Unpaywall
enrichment), over both of which the claims quantify.  `updated =
dict(item)` is a value-level copy, so the record threads through purely;
the PDF pass runs over the whole list first, the HTML pass only when it
produced nothing, and `db.upsert_item(updated)` fires only when a pass
succeeded. -/
def fetch_one (env : FetchEnv) (item : Record) (base_path : String) (locs : List Location)
    (fs : FileSys) (db : List Record) : FetchOut :=
  match pdfPass env base_path locs fs with
  | (fs1, some p) =>
    let updated := recSet item "pdf_path" (PyVal.str p)
    ⟨fs1, updated, updated :: db, true⟩
  | (fs1, none) =>
    match htmlPass env base_path locs fs1 with
    | (fs2, some h) =>
      let updated := recSet item "html_path" (PyVal.str h)
      ⟨fs2, updated, updated :: db, true⟩
    | (fs2, none) => ⟨fs2, item, db, false⟩

/-- A heap of Python dict objects, for the aliasing-sensitive claims:
references are naturals, each holding a record. -/
def Heap : Type := Nat → Record

/-- Result of `fetch_one` at the heap level. -/
structure FetchHeapOut where
  heap : Heap
  ref : Nat
  fs : FileSys
  db : List Record
  upserted : Bool

/-- `fetch_one` at the heap level: `updated = dict(item)` allocates a
fresh dict object (`fresh`, distinct from every live reference) holding
a copy of the contents of `itemRef`; every subsequent write of the call
targets the copy, and the copy's reference is returned. -/
def fetch_one_heap (env : FetchEnv) (heap : Heap) (itemRef fresh : Nat) (base_path : String)
    (locs : List Location) (fs : FileSys) (db : List Record) : FetchHeapOut :=
  let out := fetch_one env (heap itemRef) base_path locs fs db
  ⟨fun n => if n = fresh then out.record else heap n, fresh, out.fs, out.db, out.upserted⟩

/-! Concrete scenarios used by the counterexamples and witnesses -/

/-- OpenAlex metadata whose best OA location provides a direct PDF and
which carries a DOI. -/
def metaC7 : OAMeta :=
  { doi := some "10.1/x", best_oa_location := some { url_for_pdf := some "p0" } }

/-- An Unpaywall oracle answering that DOI with a best location that
provides a direct PDF. -/
def apiC7 : String → Option UPData :=
  fun d =>
    if d = "10.1/x" then some { best_oa_location := some { url_for_pdf := some "up" } }
    else none

/-- The empty filesystem. -/
def fsEmpty : FileSys := fun _ => none

/-- A network where `u1` serves bytes that do not start with the PDF
magic and `u2` serves a real PDF in two chunks; HEAD probes raise, so
the content type is unknown and the PDF pass proceeds. -/
def envC5 : FetchEnv :=
  { head := fun _ => none
    get := fun u =>
      if u = "u1" then HttpGet.resp 200 [[66, 65, 68]] none
      else if u = "u2" then HttpGet.resp 200 [[37, 80], [68, 70, 9]] none
      else HttpGet.err }

/-- First PDF candidate (serves non-PDF bytes). -/
def locC5a : Location := { pdf_url := some "u1", priority := 0, source := "t" }

/-- Second PDF candidate (serves a real PDF). -/
def locC5b : Location := { pdf_url := some "u2", priority := 5, source := "t" }

/-- A record as discovery creates it: both path fields empty. -/
def itemC9 : Record :=
  fun k =>
    if k = "id" then some (PyVal.str "W1")
    else if k = "pdf_path" then some (PyVal.str "")
    else if k = "html_path" then some (PyVal.str "")
    else if k = "title" then some (PyVal.str "T")
    else none

/-- A network with a single URL serving a real PDF. -/
def envC9 : FetchEnv :=
  { head := fun _ => none
    get := fun u =>
      if u = "u" then HttpGet.resp 200 [[37, 80, 68, 70, 1]] none
      else HttpGet.err }

/-- The candidate pointing at that URL. -/
def locC9 : Location := { pdf_url := some "u", priority := 0, source := "t" }

/-- A heap holding that record at every reference (reference 0 is the
one passed to the executor). -/
def heapC9 : Heap := fun _ => itemC9

/-! Stable sort lemmas -/

theorem stInsert_perm {α : Type} (le : α → α → Bool) (a : α) (l : List α) :
    List.Perm (stInsert le a l) (a :: l) := by
  induction l with
  | nil => simp [stInsert]
  | cons b bs ih =>
    simp only [stInsert]
    split
    · exact List.Perm.refl _
    · exact (ih.cons b).trans (List.Perm.swap a b bs)

theorem stableSort_perm {α : Type} (le : α → α → Bool) (l : List α) :
    List.Perm (stableSort le l) l := by
  induction l with
  | nil => simp [stableSort]
  | cons a as ih =>
    exact (stInsert_perm le a (stableSort le as)).trans (ih.cons a)

theorem sublist_stInsert_self {α : Type} (le : α → α → Bool) (a : α) (l : List α) :
    l.Sublist (stInsert le a l) := by
  induction l with
  | nil => simp [stInsert]
  | cons b bs ih =>
    simp only [stInsert]
    split
    · exact List.sublist_cons_self a (b :: bs)
    · exact ih.cons₂ b

theorem sublist_stInsert {α : Type} {le : α → α → Bool} {a : α} {l' l : List α}
    (h : l'.Sublist l) : l'.Sublist (stInsert le a l) :=
  h.trans (sublist_stInsert_self le a l)

theorem pair_sublist_stInsert {α : Type} {le : α → α → Bool} {a b : α} {l : List α}
    (hab : le a b = true) (hb : b ∈ l) : [a, b].Sublist (stInsert le a l) := by
  induction l with
  | nil => cases hb
  | cons c cs ih =>
    simp only [stInsert]
    split
    · exact (List.singleton_sublist.mpr hb).cons₂ a
    · rename_i hac
      rcases List.mem_cons.mp hb with hbc | hbcs
      · subst hbc
        exact absurd hab hac
      · exact (ih hbcs).cons c

theorem stableSort_pair_sublist {α : Type} {le : α → α → Bool} {a b : α} {l : List α}
    (hab : le a b = true) (h : [a, b].Sublist l) : [a, b].Sublist (stableSort le l) := by
  induction l with
  | nil => cases h
  | cons x xs ih =>
    cases h with
    | cons _ h2 => exact sublist_stInsert (ih h2)
    | cons₂ _ h2 =>
      exact pair_sublist_stInsert hab
        ((stableSort_perm le xs).mem_iff.mpr (List.singleton_sublist.mp h2))

theorem pairwise_stInsert {α : Type} {le : α → α → Bool}
    (htrans : ∀ a b c, le a b = true → le b c = true → le a c = true)
    (htotal : ∀ a b, le a b = true ∨ le b a = true)
    (a : α) {l : List α} (h : l.Pairwise (fun x y => le x y = true)) :
    (stInsert le a l).Pairwise (fun x y => le x y = true) := by
  induction l with
  | nil => simp [stInsert]
  | cons c cs ih =>
    rcases List.pairwise_cons.mp h with ⟨hc, hcs⟩
    simp only [stInsert]
    split
    · rename_i hac
      refine List.pairwise_cons.mpr ⟨?_, h⟩
      intro y hy
      rcases List.mem_cons.mp hy with rfl | hy'
      · exact hac
      · exact htrans a c y hac (hc y hy')
    · rename_i hac
      refine List.pairwise_cons.mpr ⟨?_, ih hcs⟩
      intro y hy
      have hy' := (stInsert_perm le a cs).mem_iff.mp hy
      rcases List.mem_cons.mp hy' with h1 | hy''
      · rcases htotal a c with h2 | h2
        · exact absurd h2 hac
        · rw [h1]; exact h2
      · exact hc y hy''

theorem stableSort_pairwise {α : Type} {le : α → α → Bool}
    (htrans : ∀ a b c, le a b = true → le b c = true → le a c = true)
    (htotal : ∀ a b, le a b = true ∨ le b a = true)
    (l : List α) : (stableSort le l).Pairwise (fun x y => le x y = true) := by
  induction l with
  | nil => simp [stableSort]
  | cons a as ih => exact pairwise_stInsert htrans htotal a ih

theorem stableSort_of_sorted {α : Type} {le : α → α → Bool} {l : List α}
    (h : l.Pairwise (fun x y => le x y = true)) : stableSort le l = l := by
  induction l with
  | nil => rfl
  | cons x xs ih =>
    rcases List.pairwise_cons.mp h with ⟨hx, hxs⟩
    simp only [stableSort, ih hxs]
    cases xs with
    | nil => rfl
    | cons y ys =>
      simp only [stInsert, hx y (List.mem_cons_self y ys), if_pos]

theorem locLe_trans (a b c : Location) (h1 : locLe a b = true) (h2 : locLe b c = true) :
    locLe a c = true := by
  simp only [locLe, decide_eq_true_eq] at *
  omega

theorem locLe_total (a b : Location) : locLe a b = true ∨ locLe b a = true := by
  simp only [locLe, decide_eq_true_eq]
  omega

/-- Every element of a normalized list passed the URL filter. -/
theorem normalize_mem_kept {L : List LocInput} {l : Location}
    (h : l ∈ normalize_locations L) : keepLoc l = true := by
  have h' := (stableSort_perm locLe ((L.map locationOfInput).filter keepLoc)).mem_iff.mp h
  exact List.of_mem_filter h'

/-- A normalized list is pairwise ordered by `locLe`. -/
theorem normalize_pairwise (L : List LocInput) :
    (normalize_locations L).Pairwise (fun x y => locLe x y = true) :=
  stableSort_pairwise locLe_trans locLe_total _

/-! Claim C2: normalization -/

/-- C2. `normalize_locations` is idempotent (feeding its output back
in, as `Location` values, reproduces it); no returned entry has both
URLs empty/absent; the output is sorted non-decreasing by priority; and
entries of equal priority keep their relative input order (stability,
stated on the converted input list for the entries that survive the
URL filter). -/
theorem c2_normalize_spec (L : List LocInput) :
    normalize_locations ((normalize_locations L).map LocInput.loc) = normalize_locations L
    ∧ (∀ l ∈ normalize_locations L,
        optStrTruthy l.pdf_url = true ∨ optStrTruthy l.html_url = true)
    ∧ (normalize_locations L).Pairwise (fun a b => a.priority ≤ b.priority)
    ∧ (∀ a b, [a, b].Sublist (L.map locationOfInput) → keepLoc a = true → keepLoc b = true →
        a.priority = b.priority → [a, b].Sublist (normalize_locations L)) := by
  refine ⟨?_, ?_, ?_, ?_⟩
  · show stableSort locLe
        ((((normalize_locations L).map LocInput.loc).map locationOfInput).filter keepLoc)
      = normalize_locations L
    have h1 : ((normalize_locations L).map LocInput.loc).map locationOfInput
        = normalize_locations L := by
      simp [List.map_map, Function.comp_def, locationOfInput]
    rw [h1, List.filter_eq_self.mpr (fun a ha => normalize_mem_kept ha)]
    exact stableSort_of_sorted (normalize_pairwise L)
  · intro l hl
    have hk := normalize_mem_kept hl
    simpa [keepLoc, Bool.or_eq_true] using hk
  · exact (normalize_pairwise L).imp (fun h => by simpa [locLe] using h)
  · intro a b hsub ka kb hpri
    have hle : locLe a b = true := by simp [locLe, hpri]
    have hf : [a, b].Sublist ((L.map locationOfInput).filter keepLoc) := by
      have h2 := hsub.filter keepLoc
      simpa [List.filter, ka, kb] using h2
    exact stableSort_pair_sublist hle hf

/-- C2 witness. A concrete run: a dict entry (html via the `url`
fallback), a `Location` entry of equal priority, and an entry with both
URLs absent; idempotence holds and the two priority-5 entries keep
their input order. -/
theorem c2_normalize_spec_witness :
    (normalize_locations
        ((normalize_locations
            [LocInput.dict { url := some "h", priority := some 5 },
             LocInput.loc { pdf_url := some "p", priority := 5 },
             LocInput.loc { priority := 0 }]).map LocInput.loc)
      = normalize_locations
          [LocInput.dict { url := some "h", priority := some 5 },
           LocInput.loc { pdf_url := some "p", priority := 5 },
           LocInput.loc { priority := 0 }])
    ∧ [({ html_url := some "h", priority := 5 } : Location),
       ({ pdf_url := some "p", priority := 5 } : Location)].Sublist
        (normalize_locations
          [LocInput.dict { url := some "h", priority := some 5 },
           LocInput.loc { pdf_url := some "p", priority := 5 },
           LocInput.loc { priority := 0 }]) :=
  ⟨(c2_normalize_spec _).1,
   (c2_normalize_spec _).2.2.2 _ _ (by decide) (by decide) (by decide) (by decide)⟩

/-! Claim C3: pagination -/

/-- The crawl loop yields nothing once the guard fails. -/
theorem discoverLoop_halt {W : Type} (serve : String → Option (Page W)) (max_results : Nat)
    (cursor : Option String) (fetched : Nat)
    (h : ¬(fetched < max_results ∧ truthyCursor cursor = true)) :
    discoverLoop serve max_results cursor fetched = [] := by
  unfold discoverLoop
  rw [dif_neg h]

/-- The crawl loop never yields more than the remaining budget. -/
theorem discoverLoop_length_le {W : Type} (serve : String → Option (Page W))
    (max_results : Nat) (cursor : Option String) (fetched : Nat) :
    (discoverLoop serve max_results cursor fetched).length ≤ max_results - fetched := by
  induction cursor, fetched using discoverLoop.induct serve max_results with
  | case1 fetched h1 h2 => simp [truthyCursor] at h1
  | case2 fetched s h1 hserve h2 =>
    unfold discoverLoop
    rw [dif_pos h1]
    simp [hserve]
  | case3 fetched s h1 pg hserve hres h2 =>
    unfold discoverLoop
    rw [dif_pos h1]
    simp [hserve, hres]
  | case4 fetched s h1 pg hserve x rest hres taken h2 ih =>
    have ht : taken = (x :: rest).take (max_results - fetched) := rfl
    unfold discoverLoop
    rw [dif_pos h1]
    simp only [hserve, hres, List.length_append]
    simp only [ht, List.length_take, List.length_cons] at ih ⊢
    omega
  | case5 cursor fetched h =>
    unfold discoverLoop
    rw [dif_neg h]
    simp

/-- C3. The crawler yields at most `max_results` records (in any
loop state the yield is bounded by the remaining budget), stops when a
page has zero results, and stops when the response carries no next
cursor — even when the oracle would serve further pages. -/
theorem c3_discover_pagination {W : Type} (serve : String → Option (Page W))
    (max_results : Nat) :
    (discover_openalex serve max_results).length ≤ max_results
    ∧ (∀ cursor fetched,
        (discoverLoop serve max_results cursor fetched).length ≤ max_results - fetched)
    ∧ (∀ pg, serve "*" = some pg → pg.results = [] →
        discover_openalex serve max_results = [])
    ∧ (∀ pg, serve "*" = some pg → pg.next_cursor = none →
        discover_openalex serve max_results = pg.results.take max_results) := by
  refine ⟨?_, fun cursor fetched => discoverLoop_length_le serve max_results cursor fetched,
    ?_, ?_⟩
  · simpa using discoverLoop_length_le serve max_results (some "*") 0
  · intro pg hs hres
    unfold discover_openalex
    rcases Nat.eq_zero_or_pos max_results with h0 | hpos
    · exact discoverLoop_halt _ _ _ _ (by simp [h0])
    · unfold discoverLoop
      rw [dif_pos ⟨by omega, by decide⟩]
      simp [hs, hres]
  · intro pg hs hnext
    unfold discover_openalex
    rcases Nat.eq_zero_or_pos max_results with h0 | hpos
    · rw [discoverLoop_halt _ _ _ _ (by simp [h0]), h0]
      simp
    · unfold discoverLoop
      rw [dif_pos ⟨by omega, by decide⟩]
      cases hres : pg.results with
      | nil => simp [hs, hres]
      | cons x rest =>
        simp only [hs, hres]
        rw [hnext, discoverLoop_halt _ _ _ _ (by simp [truthyCursor])]
        simp

/-- C3 witness. Two concrete crawls over a `Nat`-record upstream:
one whose first page has three results but no next cursor (capped at
`max_results = 2`), and one whose first page is empty. -/
theorem c3_discover_pagination_witness :
    (discover_openalex (fun c => if c = "*" then some ⟨[10, 20, 30], none⟩ else none) 2
      = ([10, 20, 30] : List Nat).take 2)
    ∧ (discover_openalex (fun _ => some ⟨([] : List Nat), some "n"⟩) 5 = []) :=
  ⟨(c3_discover_pagination _ 2).2.2.2 ⟨[10, 20, 30], none⟩ (by simp) rfl,
   (c3_discover_pagination _ 5).2.2.1 ⟨[], some "n"⟩ rfl rfl⟩

/-! Claim C4: query construction -/

/-- A member of a joined list occurs inside the join. -/
theorem mem_infix_joinSep {sep t : String} :
    ∀ {l : List String}, t ∈ l → t.data.IsInfix (joinSep sep l).data
  | [], h => absurd h (List.not_mem_nil t)
  | [x], h => by
    rcases List.mem_singleton.mp h with rfl
    exact List.infix_rfl
  | x :: y :: ys, h => by
    rcases List.mem_cons.mp h with rfl | h2
    · refine ⟨[], sep.data ++ (joinSep sep (y :: ys)).data, ?_⟩
      simp [joinSep]
    · obtain ⟨s, u, he⟩ := @mem_infix_joinSep sep t (y :: ys) h2
      refine ⟨(x ++ sep).data ++ s, u, ?_⟩
      simp only [joinSep, String.data_append, ← he]
      simp

/-- The query is omitted exactly when no keyword survives the blank
filter. -/
theorem build_search_query_eq_none_iff (keywords : List String) :
    build_search_query keywords = none
      ↔ keywords.filter (fun k => k ≠ "" && pyStrip k ≠ "") = [] := by
  simp only [build_search_query]
  split
  · rename_i h
    simp only [List.isEmpty_eq_true, List.map_eq_nil_iff] at h
    exact iff_of_true rfl h
  · rename_i h
    simp only [List.isEmpty_eq_true, List.map_eq_nil_iff] at h
    exact iff_of_false (by simp) h

/-- C4 counterexample. The claim says single tokens are left
unquoted, but for the single-token keyword list `["foo"]` the code
builds `("foo")`: the token is wrapped in double quotes (the query
contains the `"` character). -/
theorem c4_single_token_quoted :
    build_search_query ["foo"] = some "(\"foo\")"
    ∧ '"' ∈ "(\"foo\")".data := by
  constructor
  · rfl
  · decide

/-- C4 amended. Blank/whitespace-only keywords are excluded and an
all-blank (or empty) list yields no search parameter; every surviving
keyword — single token or phrase alike — is stripped and wrapped in
`("...")` (so every term is quoted, not only multi-word phrases), and
occurs in that quoted form inside the ` OR `-joined query. -/
theorem c4_search_query_amended (keywords : List String) :
    (build_search_query keywords = none ↔ ∀ k ∈ keywords, pyStrip k = "")
    ∧ (∀ k ∈ keywords, pyStrip k ≠ "" →
        ∃ s, build_search_query keywords = some s
          ∧ ("(\"" ++ pyStrip k ++ "\")").data.IsInfix s.data) := by
  constructor
  · rw [build_search_query_eq_none_iff, List.filter_eq_nil_iff]
    constructor
    · intro h k hk
      have h2 := h k hk
      by_cases hke : k = ""
      · rw [hke]; rfl
      · simpa [hke] using h2
    · intro h k hk
      simp [h k hk]
  · intro k hk hstrip
    have hkne : k ≠ "" := by
      intro he
      rw [he] at hstrip
      exact hstrip rfl
    have hmem : k ∈ keywords.filter (fun k => k ≠ "" && pyStrip k ≠ "") :=
      List.mem_filter.mpr ⟨hk, by simp [hkne, hstrip]⟩
    have hne : ¬((keywords.filter (fun k => k ≠ "" && pyStrip k ≠ "")).map pyStrip).isEmpty
        = true := by
      simp only [List.isEmpty_eq_true, List.map_eq_nil_iff]
      exact List.ne_nil_of_mem hmem
    refine ⟨joinSep " OR "
        (((keywords.filter (fun k => k ≠ "" && pyStrip k ≠ "")).map pyStrip).map
          (fun k => "(\"" ++ k ++ "\")")), ?_, ?_⟩
    · simp only [build_search_query]
      rw [if_neg hne]
    · exact mem_infix_joinSep
        (List.mem_map_of_mem _ (List.mem_map_of_mem pyStrip hmem))

/-- C4 amended witness. The end-to-end keyword list
`["soil carbon", " ", "erosion"]`: the whitespace-only keyword is
dropped, a query is produced, and the quoted phrase `("soil carbon")`
occurs inside it. -/
theorem c4_search_query_amended_witness :
    (build_search_query ["soil carbon", " ", "erosion"] = none
      ↔ ∀ k ∈ ["soil carbon", " ", "erosion"], pyStrip k = "")
    ∧ (∃ s, build_search_query ["soil carbon", " ", "erosion"] = some s
        ∧ ("(\"" ++ pyStrip "soil carbon" ++ "\")").data.IsInfix s.data) :=
  ⟨(c4_search_query_amended _).1,
   (c4_search_query_amended _).2 "soil carbon" (by decide) (by decide)⟩

/-! Claim C8: silent enrichment skip -/

/-- C8. When the record has no DOI (absent or empty) or the contact
email is empty, enrichment returns the input location list unchanged;
being a total function of its arguments, it raises no error. -/
theorem c8_enrich_skip (api : String → Option UPData) (locs : List Location)
    (meta : OAMeta) (email : String) (prefer_best : Bool)
    (h : meta.doi.getD "" = "" ∨ email = "") :
    enrich_locations_with_unpaywall api locs meta email prefer_best = locs := by
  unfold enrich_locations_with_unpaywall
  rcases h with h | h <;> simp [h]

/-- C8 witness. A DOI-less record with a configured email and a live
oracle: the location list passes through unchanged. -/
theorem c8_enrich_skip_witness :
    enrich_locations_with_unpaywall apiC7 [{ pdf_url := some "p", priority := 0 }]
        { doi := none } "a@b.c" true
      = [{ pdf_url := some "p", priority := 0 }] :=
  c8_enrich_skip _ _ _ _ _ (Or.inl rfl)

/-! Claim C7: the prefer-best toggle -/

/-- Unwrapping `normalizeLocs` membership down to the raw input list. -/
theorem mem_of_mem_normalizeLocs {ls : List Location} {l : Location}
    (h : l ∈ normalizeLocs ls) : l ∈ ls := by
  unfold normalizeLocs normalize_locations at h
  have h2 := (stableSort_perm locLe _).mem_iff.mp h
  have h3 := List.mem_of_mem_filter h2
  simp only [List.map_map, List.mem_map, Function.comp_def, locationOfInput] at h3
  obtain ⟨a, ha, rfl⟩ := h3
  exact ha

/-- Every candidate produced by the Unpaywall mapper survives the URL
filter and carries a non-negative priority (0 or 5 for the best entry,
`10 + index` for the listed ones). -/
theorem upw_mem_spec {api : String → Option UPData} {doi email : String} {prefer : Bool}
    {u : Location} (hu : u ∈ map_unpaywall_by_doi api doi email prefer) :
    keepLoc u = true ∧ 0 ≤ u.priority := by
  unfold map_unpaywall_by_doi at hu
  by_cases h1 : (doi = "" || email = "") = true
  · rw [if_pos h1] at hu
    cases hu
  · rw [if_neg h1] at hu
    simp only at hu
    rcases hapi : api (if pyStartsWith (pyLower (pyStrip doi)) "https://doi.org/" then
        pyReplace (pyLower (pyStrip doi)) "https://doi.org/" "" else pyLower (pyStrip doi))
      with _ | data
    · rw [hapi] at hu
      cases hu
    · rw [hapi] at hu
      refine ⟨normalize_mem_kept hu, ?_⟩
      have hmem := mem_of_mem_normalizeLocs hu
      rcases List.mem_append.mp hmem with hb | hr
      · rcases hbest : data.best_oa_location with _ | b
        · rw [hbest] at hb
          cases hb
        · rw [hbest] at hb
          rcases List.mem_singleton.mp hb with rfl
          by_cases hp : prefer = true <;> simp [hp]
      · rcases List.mem_filterMap.mp hr with ⟨pr, _, hpr⟩
        rcases Option.map_eq_some'.mp hpr with ⟨l, _, rfl⟩
        simp
        omega

/-- C7 counterexample. With the toggle on (`prefer_best = true`) the
enricher's best entry is assigned priority 0, the same as the primary
mapper's best entry; the stable renormalization keeps the primary entry
first, so the enricher's best entry does *not* sort strictly before it
(its index is not smaller), contradicting the claimed outranking. -/
theorem c7_prefer_best_counterexample :
    enrich_locations_with_unpaywall apiC7 (map_openalex_locations metaC7) metaC7
        "a@b.c" true
      = [{ pdf_url := some "p0", priority := 0, source := "openalex" },
         { pdf_url := some "up", priority := 0, source := "unpaywall" }]
    ∧ ¬ ((enrich_locations_with_unpaywall apiC7 (map_openalex_locations metaC7) metaC7
            "a@b.c" true).indexOf
          ({ pdf_url := some "up", priority := 0, source := "unpaywall" } : Location)
        < (enrich_locations_with_unpaywall apiC7 (map_openalex_locations metaC7) metaC7
            "a@b.c" true).indexOf
          ({ pdf_url := some "p0", priority := 0, source := "openalex" } : Location)) := by
  constructor
  · decide
  · decide

/-- C7 amended. The toggle only selects the priority of the
enricher's best entry (0 when on, 5 when off); in neither mode does an
Unpaywall entry outrank a primary entry of priority 0: every surviving
priority-0 primary entry precedes every Unpaywall candidate in the
renormalized combined list (ties at priority 0 go to the primary list
by sort stability). -/
theorem c7_prefer_best_never_outranks (api : String → Option UPData)
    (locs : List Location) (meta : OAMeta) (email : String) (prefer_best : Bool)
    (p : Location) (hp : p ∈ locs) (hpr : p.priority = 0) (hkeep : keepLoc p = true)
    (hdoi : ¬ meta.doi.getD "" = "") (hemail : ¬ email = "") :
    ∀ u ∈ map_unpaywall_by_doi api (meta.doi.getD "") email prefer_best,
      0 ≤ u.priority
      ∧ [p, u].Sublist
          (enrich_locations_with_unpaywall api locs meta email prefer_best) := by
  intro u hu
  obtain ⟨hkeepu, hupri⟩ := upw_mem_spec hu
  refine ⟨hupri, ?_⟩
  have henrich : enrich_locations_with_unpaywall api locs meta email prefer_best
      = normalizeLocs
          (locs ++ map_unpaywall_by_doi api (meta.doi.getD "") email prefer_best) := by
    unfold enrich_locations_with_unpaywall
    simp [hdoi, hemail]
  rw [henrich]
  have hle : locLe p u = true := by
    simp only [locLe, decide_eq_true_eq]
    omega
  have hsub : [p, u].Sublist
      (locs ++ map_unpaywall_by_doi api (meta.doi.getD "") email prefer_best) := by
    have h1 : [p].Sublist locs := List.singleton_sublist.mpr hp
    have h2 : [u].Sublist (map_unpaywall_by_doi api (meta.doi.getD "") email prefer_best) :=
      List.singleton_sublist.mpr hu
    exact h1.append h2
  show [p, u].Sublist (normalize_locations _)
  have hsub2 : [p, u].Sublist
      ((((locs ++ map_unpaywall_by_doi api (meta.doi.getD "") email prefer_best).map
          LocInput.loc).map locationOfInput).filter keepLoc) := by
    have heq : ((locs ++ map_unpaywall_by_doi api (meta.doi.getD "") email
        prefer_best).map LocInput.loc).map locationOfInput
        = locs ++ map_unpaywall_by_doi api (meta.doi.getD "") email prefer_best := by
      simp [List.map_map, Function.comp_def, locationOfInput]
    rw [heq]
    have h2 := hsub.filter keepLoc
    simpa [List.filter, hkeep, hkeepu] using h2
  exact stableSort_pair_sublist hle hsub2

/-- C7 amended witness. The concrete scenario of the counterexample:
the primary priority-0 entry precedes the Unpaywall best entry in the
combined list even with `prefer_best = true`. -/
theorem c7_prefer_best_never_outranks_witness :
    0 ≤ ({ pdf_url := some "up", priority := 0, source := "unpaywall" } : Location).priority
    ∧ [({ pdf_url := some "p0", priority := 0, source := "openalex" } : Location),
       ({ pdf_url := some "up", priority := 0, source := "unpaywall" } : Location)].Sublist
        (enrich_locations_with_unpaywall apiC7 (map_openalex_locations metaC7) metaC7
          "a@b.c" true) :=
  c7_prefer_best_never_outranks apiC7 (map_openalex_locations metaC7) metaC7 "a@b.c" true
    _ (by decide) (by decide) (by decide) (by decide) (by decide)
    _ (by decide)

/-! Claim C1: exclusivity of the two passes -/

/-- C1. One `fetch_one` invocation ends in exactly one of three
states: the PDF pass accepted somewhere in the candidate list (only
`pdf_path` is set, `html_path` is untouched, and the filesystem is the
one the PDF pass left — the HTML pass never ran); the PDF pass produced
nothing over the whole list and the HTML pass accepted (only
`html_path` is set, `pdf_path` untouched); or both passes produced
nothing (record unchanged).  The first two are exactly the successful
outcomes (`upserted = true`), so at most one path field is newly
populated per call and exactly one per successful outcome. -/
theorem c1_fetch_exclusive (env : FetchEnv) (item : Record) (base_path : String)
    (locs : List Location) (fs : FileSys) (db : List Record) :
    (∃ p, (pdfPass env base_path locs fs).2 = some p
      ∧ (fetch_one env item base_path locs fs db).record
          = recSet item "pdf_path" (PyVal.str p)
      ∧ (fetch_one env item base_path locs fs db).record "html_path" = item "html_path"
      ∧ (fetch_one env item base_path locs fs db).fs = (pdfPass env base_path locs fs).1
      ∧ (fetch_one env item base_path locs fs db).upserted = true)
    ∨ ((pdfPass env base_path locs fs).2 = none
      ∧ ∃ h, (htmlPass env base_path locs (pdfPass env base_path locs fs).1).2 = some h
        ∧ (fetch_one env item base_path locs fs db).record
            = recSet item "html_path" (PyVal.str h)
        ∧ (fetch_one env item base_path locs fs db).record "pdf_path" = item "pdf_path"
        ∧ (fetch_one env item base_path locs fs db).upserted = true)
    ∨ ((pdfPass env base_path locs fs).2 = none
      ∧ (htmlPass env base_path locs (pdfPass env base_path locs fs).1).2 = none
      ∧ (fetch_one env item base_path locs fs db).record = item
      ∧ (fetch_one env item base_path locs fs db).upserted = false) := by
  rcases hpdf : pdfPass env base_path locs fs with ⟨fs1, op⟩
  cases op with
  | some p =>
    left
    refine ⟨p, ?_, ?_, ?_, ?_, ?_⟩ <;> simp [fetch_one, hpdf, recSet]
  | none =>
    rcases hhtml : htmlPass env base_path locs fs1 with ⟨fs2, oh⟩
    cases oh with
    | some h =>
      right; left
      refine ⟨?_, h, ?_, ?_, ?_, ?_⟩ <;> simp [fetch_one, hpdf, hhtml, recSet]
    | none =>
      right; right
      refine ⟨?_, ?_, ?_, ?_⟩ <;> simp [fetch_one, hpdf, hhtml]

/-! Claim C5: PDF signature validation -/

/-- C5. An accepted PDF candidate always leaves a file at
`base_path ++ ".pdf"` whose first bytes are the PDF magic; a completed
download whose bytes lack the magic is rejected and its file deleted
(the pass falls through to the next candidate); and in the concrete
two-candidate scenario — first candidate invalid, second valid — the
pass discards the first file and returns the second candidate's
artifact, whose bytes are the second download. -/
theorem c5_pdf_validation :
    (∀ env loc base_path fs p, (try_pdf env loc base_path fs).2 = some p →
      p = base_path ++ ".pdf"
      ∧ ∃ bytes, (try_pdf env loc base_path fs).1 p = some bytes
          ∧ bytes.take 4 = pdfMagic)
    ∧ (∀ env loc base_path fs,
        optStrTruthy loc.pdf_url = true →
        (if head_content_type env (loc.pdf_url.getD "") ≠ "" then
            strContains (head_content_type env (loc.pdf_url.getD "")) "application/pdf"
          else true) = true →
        (download env (loc.pdf_url.getD "") (base_path ++ ".pdf") fs).2 = true →
        is_real_pdf (download env (loc.pdf_url.getD "") (base_path ++ ".pdf") fs).1
          (base_path ++ ".pdf") = false →
        (try_pdf env loc base_path fs).2 = none
        ∧ (try_pdf env loc base_path fs).1 (base_path ++ ".pdf") = none)
    ∧ (pdfPass envC5 "d/x" [locC5a, locC5b] fsEmpty).2 = some "d/x.pdf"
    ∧ (pdfPass envC5 "d/x" [locC5a, locC5b] fsEmpty).1 "d/x.pdf"
        = some [37, 80, 68, 70, 9] := by
  refine ⟨?_, ?_, by decide, by decide⟩
  · intro env loc base_path fs p hp
    unfold try_pdf at hp ⊢
    by_cases h1 : optStrTruthy loc.pdf_url = true
    · simp only [h1, Bool.not_true, Bool.false_eq_true, if_false] at hp ⊢
      by_cases h2 : (if head_content_type env (loc.pdf_url.getD "") ≠ "" then
          strContains (head_content_type env (loc.pdf_url.getD "")) "application/pdf"
        else true) = true
      · simp only [h2, if_true] at hp ⊢
        rcases hdl : download env (loc.pdf_url.getD "") (base_path ++ ".pdf") fs
          with ⟨fs1, b⟩
        rw [hdl] at hp
        cases b with
        | false => simp at hp
        | true =>
          by_cases h3 : is_real_pdf fs1 (base_path ++ ".pdf") = true
          · simp only [h3, if_true] at hp ⊢
            have hp' : some (base_path ++ ".pdf") = some p := hp
            obtain rfl := (Option.some_inj.mp hp').symm
            refine ⟨rfl, ?_⟩
            unfold is_real_pdf at h3
            rcases hf : fs1 (base_path ++ ".pdf") with _ | bytes
            · rw [hf] at h3
              simp at h3
            · rw [hf] at h3
              exact ⟨bytes, rfl, by simpa using h3⟩
          · simp only [Bool.not_eq_true] at h3
            simp only [h3, Bool.false_eq_true, if_false] at hp
            simp at hp
      · simp only [if_neg h2] at hp
        simp at hp
    · simp only [Bool.not_eq_true] at h1
      simp [h1] at hp
  · intro env loc base_path fs h1 h2 h3 h4
    unfold try_pdf
    simp only [h1, Bool.not_true, Bool.false_eq_true, if_false, h2, if_true]
    rcases hdl : download env (loc.pdf_url.getD "") (base_path ++ ".pdf") fs with ⟨fs1, b⟩
    rw [hdl] at h3 h4
    cases b with
    | false => simp at h3
    | true =>
      have h4' : is_real_pdf fs1 (base_path ++ ".pdf") = false := h4
      simp only [h4', Bool.false_eq_true, if_false]
      constructor
      · trivial
      · rcases hf : fs1 (base_path ++ ".pdf") with _ | bytes
        · simp [hf]
        · simp [hf, fsRemove]

/-- C5 witness. Instantiating the two general parts on the scenario
network: the second candidate's accepted file starts with the magic;
the first candidate is rejected with its file removed. -/
theorem c5_pdf_validation_witness :
    ("d/x.pdf" = "d/x" ++ ".pdf"
      ∧ ∃ bytes, (try_pdf envC5 locC5b "d/x" fsEmpty).1 "d/x.pdf" = some bytes
          ∧ bytes.take 4 = pdfMagic)
    ∧ ((try_pdf envC5 locC5a "d/x" fsEmpty).2 = none
      ∧ (try_pdf envC5 locC5a "d/x" fsEmpty).1 ("d/x" ++ ".pdf") = none) :=
  ⟨c5_pdf_validation.1 envC5 locC5b "d/x" fsEmpty "d/x.pdf" (by decide),
   c5_pdf_validation.2.1 envC5 locC5a "d/x" fsEmpty (by decide) (by decide) (by decide)
     (by decide)⟩

/-! Claim C6: upsert iff a pass succeeded -/

/-- C6. When both passes produce nothing the call is a no-op: the
record comes back unchanged, the upsert log is untouched, and no upsert
is reported.  In general an upsert is reported iff one of the passes
succeeded, no upsert leaves the log untouched, and an upsert pushes
exactly the updated record. -/
theorem c6_fetch_upsert_iff (env : FetchEnv) (item : Record) (base_path : String)
    (locs : List Location) (fs : FileSys) (db : List Record) :
    ((pdfPass env base_path locs fs).2 = none →
      (htmlPass env base_path locs (pdfPass env base_path locs fs).1).2 = none →
      (fetch_one env item base_path locs fs db).record = item
      ∧ (fetch_one env item base_path locs fs db).db = db
      ∧ (fetch_one env item base_path locs fs db).upserted = false)
    ∧ ((fetch_one env item base_path locs fs db).upserted = true
        ↔ ((pdfPass env base_path locs fs).2.isSome = true
          ∨ (htmlPass env base_path locs (pdfPass env base_path locs fs).1).2.isSome
              = true))
    ∧ ((fetch_one env item base_path locs fs db).upserted = false
        → (fetch_one env item base_path locs fs db).db = db)
    ∧ ((fetch_one env item base_path locs fs db).upserted = true
        → (fetch_one env item base_path locs fs db).db
            = (fetch_one env item base_path locs fs db).record :: db) := by
  rcases hpdf : pdfPass env base_path locs fs with ⟨fs1, op⟩
  cases op with
  | some p =>
    refine ⟨?_, ?_, ?_, ?_⟩ <;> simp [fetch_one, hpdf]
  | none =>
    rcases hhtml : htmlPass env base_path locs fs1 with ⟨fs2, oh⟩
    cases oh with
    | some h =>
      refine ⟨?_, ?_, ?_, ?_⟩ <;> simp [fetch_one, hpdf, hhtml]
    | none =>
      refine ⟨?_, ?_, ?_, ?_⟩ <;> simp [fetch_one, hpdf, hhtml]

/-- C6 witness. A network where every request fails and a candidate
list with one PDF-only candidate: both passes produce nothing, the
record is returned unchanged and the upsert log stays empty. -/
theorem c6_fetch_upsert_iff_witness :
    (fetch_one { head := fun _ => none, get := fun _ => HttpGet.err } itemC9 "d/W1"
        [locC5a] fsEmpty []).record = itemC9
    ∧ (fetch_one { head := fun _ => none, get := fun _ => HttpGet.err } itemC9 "d/W1"
        [locC5a] fsEmpty []).db = []
    ∧ (fetch_one { head := fun _ => none, get := fun _ => HttpGet.err } itemC9 "d/W1"
        [locC5a] fsEmpty []).upserted = false :=
  (c6_fetch_upsert_iff { head := fun _ => none, get := fun _ => HttpGet.err } itemC9
    "d/W1" [locC5a] fsEmpty []).1 (by decide) (by decide)

/-! Claim C9: no in-place mutation -/

/-- C9 counterexample. At the heap level, a successful PDF fetch
does not update the record object passed in: the input reference still
holds the old empty `pdf_path` (and not the new artifact path), while
the fresh reference returned by the call holds the new path. -/
theorem c9_no_in_place_mutation :
    (fetch_one_heap envC9 heapC9 0 1 "d/W1" [locC9] fsEmpty []).upserted = true
    ∧ (fetch_one_heap envC9 heapC9 0 1 "d/W1" [locC9] fsEmpty []).heap 0 "pdf_path"
        = some (PyVal.str "")
    ∧ ¬ ((fetch_one_heap envC9 heapC9 0 1 "d/W1" [locC9] fsEmpty []).heap 0 "pdf_path"
        = some (PyVal.str "d/W1.pdf"))
    ∧ (fetch_one_heap envC9 heapC9 0 1 "d/W1" [locC9] fsEmpty []).heap
        (fetch_one_heap envC9 heapC9 0 1 "d/W1" [locC9] fsEmpty []).ref "pdf_path"
        = some (PyVal.str "d/W1.pdf") := by
  refine ⟨?_, ?_, ?_, ?_⟩ <;> decide

/-- C9 amended. `updated = dict(item)` is a fresh shallow copy, so
the executor never mutates the object passed in: the input reference
keeps its old contents, the returned reference is the fresh copy
holding the update, and no other reference changes; the caller observes
the new path through the return value (and the store). -/
theorem c9_copy_not_in_place (env : FetchEnv) (heap : Heap) (itemRef fresh : Nat)
    (base_path : String) (locs : List Location) (fs : FileSys) (db : List Record)
    (hne : itemRef ≠ fresh) :
    (fetch_one_heap env heap itemRef fresh base_path locs fs db).heap itemRef
        = heap itemRef
    ∧ (fetch_one_heap env heap itemRef fresh base_path locs fs db).ref = fresh
    ∧ (fetch_one_heap env heap itemRef fresh base_path locs fs db).heap fresh
        = (fetch_one env (heap itemRef) base_path locs fs db).record
    ∧ (∀ n, n ≠ fresh →
        (fetch_one_heap env heap itemRef fresh base_path locs fs db).heap n = heap n) := by
  refine ⟨?_, rfl, ?_, ?_⟩
  · simp [fetch_one_heap, hne]
  · simp [fetch_one_heap]
  · intro n hn
    simp [fetch_one_heap, hn]

/-- C9 amended witness. The concrete successful fetch of the
counterexample: reference 0 is untouched and the fresh reference 1 is
returned with the updated record. -/
theorem c9_copy_not_in_place_witness :
    (fetch_one_heap envC9 heapC9 0 1 "d/W1" [locC9] fsEmpty []).heap 0 = heapC9 0
    ∧ (fetch_one_heap envC9 heapC9 0 1 "d/W1" [locC9] fsEmpty []).ref = 1
    ∧ (fetch_one_heap envC9 heapC9 0 1 "d/W1" [locC9] fsEmpty []).heap 1
        = (fetch_one envC9 (heapC9 0) "d/W1" [locC9] fsEmpty []).record :=
  ⟨(c9_copy_not_in_place envC9 heapC9 0 1 "d/W1" [locC9] fsEmpty [] (by decide)).1,
   (c9_copy_not_in_place envC9 heapC9 0 1 "d/W1" [locC9] fsEmpty [] (by decide)).2.1,
   (c9_copy_not_in_place envC9 heapC9 0 1 "d/W1" [locC9] fsEmpty [] (by decide)).2.2.1⟩

/-! Claim C10: frame of the returned record -/

/-- C10. The record returned by `fetch_one` agrees with the input
record on every key other than `pdf_path` and `html_path`, whatever the
download outcomes. -/
theorem c10_fetch_frame (env : FetchEnv) (item : Record) (base_path : String)
    (locs : List Location) (fs : FileSys) (db : List Record) (k : String)
    (h1 : k ≠ "pdf_path") (h2 : k ≠ "html_path") :
    (fetch_one env item base_path locs fs db).record k = item k := by
  rcases hpdf : pdfPass env base_path locs fs with ⟨fs1, op⟩
  cases op with
  | some p => simp [fetch_one, hpdf, recSet, h1]
  | none =>
    rcases hhtml : htmlPass env base_path locs fs1 with ⟨fs2, oh⟩
    cases oh with
    | some h => simp [fetch_one, hpdf, hhtml, recSet, h2]
    | none => simp [fetch_one, hpdf, hhtml]

/-- C10 witness. The concrete successful fetch: the `title` (and
`id`) fields of the returned record are the input's. -/
theorem c10_fetch_frame_witness :
    (fetch_one envC9 itemC9 "d/W1" [locC9] fsEmpty []).record "title" = itemC9 "title"
    ∧ (fetch_one envC9 itemC9 "d/W1" [locC9] fsEmpty []).record "id" = itemC9 "id" :=
  ⟨c10_fetch_frame envC9 itemC9 "d/W1" [locC9] fsEmpty [] "title" (by decide) (by decide),
   c10_fetch_frame envC9 itemC9 "d/W1" [locC9] fsEmpty [] "id" (by decide) (by decide)⟩

end UWSS
